import Mathlib

/-!
# Verification of the debank double-entry ledger core

Shallow embedding of the wallet transaction engine of the debank repository:
the account/transaction/posting data model, the balance-update and
double-entry triggers of the SQL schema, and the service-layer operations
Deposit / Withdraw / Transfer.

The embedding follows the `service` package wallet service (the
lock-then-check variant, `src/unnamed/part_004`, middle snapshot) together
with the repository queries it calls (`src/unnamed/part_001`) and the
database triggers (`src/internal/db/schema/002_functions.sql`,
`src/internal/db/migrations/006_balance_update_trigger.up.sql`).  The older
`services`-package variant (`src/internal/services/wallet_services.go` with
`src/internal/repository/wallet_repository.go`) is embedded separately as
`servicesDeposit` / `repoDeposit`, since it orders validation and the
idempotency lookup differently.

Conventions:
* Go `int64` values (ids, amounts, balances) are `Int`; amounts are bounded
  by business rules to at most 100 000 000, so 64-bit overflow plays no
  role in the claims and is not modelled.
* The database is a `Ledger` value; a unit of work is explicit state
  passing over a working copy, and each operation returns the observable
  post-state: on an error inside the unit of work the pre-state is returned
  (rollback), on commit the working state is returned.
* Infrastructure failures (begin/lock/insert/commit errors) are modelled by
  a `FailSpec` oracle saying which repository step fails.
* Log output and formatted message strings are irrelevant to all the
  properties below; messages are fixed constants.
-/

namespace Debank

/-- A row of the `accounts` table (src/internal/models wallet model): only the
columns the wallet operations read.  `userId` is `NULL` for system accounts,
`externalId` identifies system accounts (`sys_reserve`, `sys_fee`). -/
structure Account where
  id : Int
  typ : String
  balance : Int
  userId : Option Int
  externalId : Option String
  deriving Repr, DecidableEq

/-- A row of the `transactions` table: only the columns the wallet service
writes (`INSERT INTO transactions (idempotency_key, kind, status, reference)`). -/
structure Txn where
  id : Int
  idempotencyKey : String
  kind : String
  status : String
  reference : String
  deriving Repr, DecidableEq

/-- A row of the `postings` table. -/
structure Posting where
  transactionId : Int
  accountId : Int
  amount : Int
  deriving Repr, DecidableEq

/-- The ledger database state.  `nextTxnId` models the `transactions.id`
sequence (`RETURNING id` on insert). -/
structure Ledger where
  accounts : List Account
  transactions : List Txn
  postings : List Posting
  nextTxnId : Int
  deriving Repr, DecidableEq

/-- The service error taxonomy (`service` package error variables). -/
inductive Err where
  | invalidAmount
  | amountTooSmall
  | amountTooLarge
  | invalidIdempotencyKey
  | negativeBalance
  | insufficientBalance
  | accountNotFound
  | sameAccount
  | infra (step : String)
  deriving Repr, DecidableEq

-- ==============================================
-- Repository queries (src/unnamed/part_001)
-- ==============================================

/-- `SELECT ... FROM accounts WHERE user_id = $1` (both the plain and the
`FOR UPDATE` variant read the same row; locking itself has no effect on the
sequential state). -/
def findByUser (accs : List Account) (userID : Int) : Option Account :=
  accs.find? (fun a => a.userId == some userID)

/-- `SELECT ... FROM accounts WHERE external_id = $1 AND type = 'system'`
(GetSystemAccount / GetSystemAccountForUpdate). -/
def findSystem (accs : List Account) (externalID : String) : Option Account :=
  accs.find? (fun a => a.externalId == some externalID && a.typ == "system")

def getAccountByUserID (l : Ledger) (userID : Int) : Option Account :=
  findByUser l.accounts userID

def getSystemAccount (l : Ledger) (externalID : String) : Option Account :=
  findSystem l.accounts externalID

/-- `SELECT ... FROM transactions WHERE idempotency_key = $1`
(GetTransactionByIdempotencyKey). -/
def getTransactionByIdempotencyKey (l : Ledger) (key : String) : Option Txn :=
  l.transactions.find? (fun t => t.idempotencyKey == key)

/-- Per-row effect of the balance-update trigger:
`SET balance = balance + NEW.amount WHERE id = NEW.account_id`. -/
def applyPosting (p : Posting) (a : Account) : Account :=
  if a.id = p.accountId then { a with balance := a.balance + p.amount } else a

/-- Trigger `update_account_balance_on_posting`
(006_balance_update_trigger.up.sql): on every posting insert,
`UPDATE accounts SET balance = balance + NEW.amount WHERE id = NEW.account_id`. -/
def updateAccountBalanceOnPosting (accs : List Account) (p : Posting) : List Account :=
  accs.map (applyPosting p)

/-- `CreateTransaction`: insert a transaction row, returning the new id. -/
def createTransaction (l : Ledger) (key kind status reference : String) : Ledger × Int :=
  ({ l with
      transactions := l.transactions ++ [⟨l.nextTxnId, key, kind, status, reference⟩],
      nextTxnId := l.nextTxnId + 1 },
   l.nextTxnId)

/-- `CreatePosting`: insert a posting row; the insert fires the
balance-update trigger. -/
def createPosting (l : Ledger) (p : Posting) : Ledger :=
  { l with
      postings := l.postings ++ [p],
      accounts := updateAccountBalanceOnPosting l.accounts p }

/-- The postings of one transaction (`WHERE transaction_id = $1`). -/
def postingsOf (l : Ledger) (tid : Int) : List Posting :=
  l.postings.filter (fun p => p.transactionId == tid)

def sumAmounts (ps : List Posting) : Int :=
  (ps.map Posting.amount).sum

/-- Deferred constraint trigger `enforce_double_entry`
(002_functions.sql): at commit, the postings of the touched transaction must
sum to zero, else the whole unit of work aborts. -/
def enforceDoubleEntry (l : Ledger) (tid : Int) : Bool :=
  sumAmounts (postingsOf l tid) == 0

-- ==============================================
-- Failure injection for infrastructure steps
-- ==============================================

/-- Which repository step of a unit of work fails (models begin/lock/insert/
commit errors; §5 atomicity-under-failure is quantified over these). -/
structure FailSpec where
  beginTx : Bool
  lockFirst : Bool
  lockSecond : Bool
  lockSystem : Bool
  createTxn : Bool
  firstPosting : Bool
  secondPosting : Bool
  feePosting : Bool
  commitTx : Bool
  deriving Repr, DecidableEq

/-- No infrastructure failure. -/
def noFail : FailSpec := ⟨false, false, false, false, false, false, false, false, false⟩

-- ==============================================
-- Business rules (service constants)
-- ==============================================

def MinDepositAmount : Int := 10000
def MinWithdrawAmount : Int := 10000
def MinTransferAmount : Int := 10000
def MaxTransactionAmount : Int := 100000000

/-- `validateDepositAmount`: `none` means valid. -/
def validateDepositAmount (amount : Int) : Option Err :=
  if amount ≤ 0 then some .invalidAmount
  else if amount < MinDepositAmount then some .amountTooSmall
  else if amount > MaxTransactionAmount then some .amountTooLarge
  else none

/-- `validateWithdrawAmount`. -/
def validateWithdrawAmount (amount : Int) : Option Err :=
  if amount ≤ 0 then some .invalidAmount
  else if amount < MinWithdrawAmount then some .amountTooSmall
  else if amount > MaxTransactionAmount then some .amountTooLarge
  else none

/-- `validateTransferAmount`. -/
def validateTransferAmount (amount : Int) : Option Err :=
  if amount ≤ 0 then some .invalidAmount
  else if amount < MinTransferAmount then some .amountTooSmall
  else if amount > MaxTransactionAmount then some .amountTooLarge
  else none

-- ==============================================
-- Requests and responses
-- ==============================================

structure DepositRequest where
  userID : Int
  amount : Int
  idempotencyKey : String
  reference : String
  deriving Repr, DecidableEq

structure WithdrawRequest where
  userID : Int
  amount : Int
  idempotencyKey : String
  reference : String
  deriving Repr, DecidableEq

structure TransferRequest where
  fromUserID : Int
  toUserID : Int
  amount : Int
  fee : Int
  idempotencyKey : String
  reference : String
  deriving Repr, DecidableEq

structure TransactionResponse where
  transactionID : Int
  status : String
  balance : Int
  reference : String
  message : String
  deriving Repr, DecidableEq

structure TransferResponse where
  transactionID : Int
  status : String
  senderBalance : Int
  recipientBalance : Int
  message : String
  deriving Repr, DecidableEq

def idempotentMsg : String := "Transaction already processed (idempotent)"
def depositMsg : String := "Successfully deposited"
def withdrawMsg : String := "Successfully withdrew"
def transferMsg : String := "Successfully transferred"

-- ==============================================
-- Service operations (src/unnamed/part_004, middle snapshot)
-- ==============================================

/-- `executeDeposit`: begin; lock user account; lock reserve; create the
transaction (kind `deposit`, status `posted`); debit reserve; credit user;
commit (deferred zero-sum check); new balance computed as the locked
balance plus the amount. -/
def executeDeposit (f : FailSpec) (l : Ledger) (req : DepositRequest) :
    Except Err (Ledger × Int × Int) :=
  if f.beginTx then .error (.infra "begin") else
  if f.lockFirst then .error (.infra "lock user account") else
  match getAccountByUserID l req.userID with
  | none => .error .accountNotFound
  | some userAccount =>
    if f.lockSystem then .error (.infra "lock reserve account") else
    match getSystemAccount l "sys_reserve" with
    | none => .error (.infra "reserve account not found")
    | some reserveAccount =>
      if f.createTxn then .error (.infra "create transaction") else
      let c := createTransaction l req.idempotencyKey "deposit" "posted" req.reference
      if f.firstPosting then .error (.infra "create posting") else
      let l2 := createPosting c.1 ⟨c.2, reserveAccount.id, -req.amount⟩
      if f.secondPosting then .error (.infra "create posting") else
      let l3 := createPosting l2 ⟨c.2, userAccount.id, req.amount⟩
      if f.commitTx then .error (.infra "commit") else
      if enforceDoubleEntry l3 c.2 then
        .ok (l3, c.2, userAccount.balance + req.amount)
      else .error (.infra "integrity")

/-- `buildIdempotentResponse`: reply for a replayed Deposit/Withdraw from the
current account state and the new request's reference. -/
def buildIdempotentResponse (l : Ledger) (txnID userID : Int) (reference : String) :
    Except Err TransactionResponse :=
  match getAccountByUserID l userID with
  | none => .error .accountNotFound
  | some account => .ok ⟨txnID, "posted", account.balance, reference, idempotentMsg⟩

/-- `Deposit` (service level): key present → amount valid → idempotency
lookup (replay short-circuits) → execute → negative-balance sanity check. -/
def Deposit (f : FailSpec) (l : Ledger) (req : DepositRequest) :
    Ledger × Except Err TransactionResponse :=
  if req.idempotencyKey == "" then (l, .error .invalidIdempotencyKey) else
  match validateDepositAmount req.amount with
  | some e => (l, .error e)
  | none =>
    match getTransactionByIdempotencyKey l req.idempotencyKey with
    | some existingTxn => (l, buildIdempotentResponse l existingTxn.id req.userID req.reference)
    | none =>
      match executeDeposit f l req with
      | .error e => (l, .error e)
      | .ok (l', txnID, newBalance) =>
        if newBalance < 0 then (l', .error .negativeBalance)
        else (l', .ok ⟨txnID, "posted", newBalance, req.reference, depositMsg⟩)

/-- `executeWithdraw`: begin; lock user account; authoritative balance check
under the lock; lock reserve; create the transaction (kind `withdrawal`,
status `posted`); debit user; credit reserve; commit. -/
def executeWithdraw (f : FailSpec) (l : Ledger) (req : WithdrawRequest) :
    Except Err (Ledger × Int × Int) :=
  if f.beginTx then .error (.infra "begin") else
  if f.lockFirst then .error (.infra "lock user account") else
  match getAccountByUserID l req.userID with
  | none => .error .accountNotFound
  | some userAccount =>
    if userAccount.balance < req.amount then .error .insufficientBalance else
    if f.lockSystem then .error (.infra "lock reserve account") else
    match getSystemAccount l "sys_reserve" with
    | none => .error (.infra "reserve account not found")
    | some reserveAccount =>
      if f.createTxn then .error (.infra "create transaction") else
      let c := createTransaction l req.idempotencyKey "withdrawal" "posted" req.reference
      if f.firstPosting then .error (.infra "create posting") else
      let l2 := createPosting c.1 ⟨c.2, userAccount.id, -req.amount⟩
      if f.secondPosting then .error (.infra "create posting") else
      let l3 := createPosting l2 ⟨c.2, reserveAccount.id, req.amount⟩
      if f.commitTx then .error (.infra "commit") else
      if enforceDoubleEntry l3 c.2 then
        .ok (l3, c.2, userAccount.balance - req.amount)
      else .error (.infra "integrity")

/-- `Withdraw` (service level). -/
def Withdraw (f : FailSpec) (l : Ledger) (req : WithdrawRequest) :
    Ledger × Except Err TransactionResponse :=
  if req.idempotencyKey == "" then (l, .error .invalidIdempotencyKey) else
  match validateWithdrawAmount req.amount with
  | some e => (l, .error e)
  | none =>
    match getTransactionByIdempotencyKey l req.idempotencyKey with
    | some existingTxn => (l, buildIdempotentResponse l existingTxn.id req.userID req.reference)
    | none =>
      match executeWithdraw f l req with
      | .error e => (l, .error e)
      | .ok (l', txnID, newBalance) =>
        if newBalance < 0 then (l', .error .negativeBalance)
        else (l', .ok ⟨txnID, "posted", newBalance, req.reference, withdrawMsg⟩)

/-- Lock-order computation of `executeTransfer`: always lock the account
with the lower user id first, independent of argument position. -/
def transferLockOrder (fromUserID toUserID : Int) : Int × Int :=
  if toUserID < fromUserID then (toUserID, fromUserID) else (fromUserID, toUserID)

/-- The `if req.Fee > 0` block of `executeTransfer`: lock the fee account
(`sys_fee`) and credit it by `fee`; for a zero fee the state is untouched. -/
def transferFeeStep (f : FailSpec) (l3 : Ledger) (tid fee : Int) : Except Err Ledger :=
  if fee > 0 then
    if f.lockSystem then .error (.infra "lock fee account") else
    match getSystemAccount l3 "sys_fee" with
    | none => .error (.infra "fee account not found")
    | some feeAccount =>
      if f.feePosting then .error (.infra "create posting") else
      .ok (createPosting l3 ⟨tid, feeAccount.id, fee⟩)
  else .ok l3

/-- `executeTransfer`: begin; lock both user accounts in ascending-user-id
order; map back to sender/recipient; balance check of `amount + fee` under
the locks; create the transaction (kind `p2p`, status `posted`); debit
sender by `amount + fee`; credit recipient by `amount`; when `fee > 0` lock
the fee account and credit it by `fee`; commit. -/
def executeTransfer (f : FailSpec) (l : Ledger) (req : TransferRequest) :
    Except Err (Ledger × Int × Int × Int) :=
  if f.beginTx then .error (.infra "begin") else
  let order := transferLockOrder req.fromUserID req.toUserID
  if f.lockFirst then .error (.infra "lock account") else
  match getAccountByUserID l order.1 with
  | none => .error .accountNotFound
  | some firstAccount =>
  if f.lockSecond then .error (.infra "lock account") else
  match getAccountByUserID l order.2 with
  | none => .error .accountNotFound
  | some secondAccount =>
    let senderAccount := if order.1 == req.fromUserID then firstAccount else secondAccount
    let recipientAccount := if order.1 == req.fromUserID then secondAccount else firstAccount
    let totalDebit := req.amount + req.fee
    if senderAccount.balance < totalDebit then .error .insufficientBalance else
    if f.createTxn then .error (.infra "create transaction") else
    let c := createTransaction l req.idempotencyKey "p2p" "posted" req.reference
    if f.firstPosting then .error (.infra "create posting") else
    let l2 := createPosting c.1 ⟨c.2, senderAccount.id, -totalDebit⟩
    if f.secondPosting then .error (.infra "create posting") else
    let l3 := createPosting l2 ⟨c.2, recipientAccount.id, req.amount⟩
    match transferFeeStep f l3 c.2 req.fee with
    | .error e => .error e
    | .ok l4 =>
      if f.commitTx then .error (.infra "commit") else
      if enforceDoubleEntry l4 c.2 then
        .ok (l4, c.2, senderAccount.balance - totalDebit, recipientAccount.balance + req.amount)
      else .error (.infra "integrity")

/-- `buildIdempotentTransferResponse`: reply for a replayed Transfer from
both parties' current balances. -/
def buildIdempotentTransferResponse (l : Ledger) (txnID fromUserID toUserID : Int) :
    Except Err TransferResponse :=
  match getAccountByUserID l fromUserID with
  | none => .error .accountNotFound
  | some senderAccount =>
    match getAccountByUserID l toUserID with
    | none => .error .accountNotFound
    | some recipientAccount =>
      .ok ⟨txnID, "posted", senderAccount.balance, recipientAccount.balance, idempotentMsg⟩

/-- `Transfer` (service level): key present → not same account → amount
valid → fee non-negative → idempotency lookup (replay short-circuits) →
execute. -/
def Transfer (f : FailSpec) (l : Ledger) (req : TransferRequest) :
    Ledger × Except Err TransferResponse :=
  if req.idempotencyKey == "" then (l, .error .invalidIdempotencyKey) else
  if req.fromUserID == req.toUserID then (l, .error .sameAccount) else
  match validateTransferAmount req.amount with
  | some e => (l, .error e)
  | none =>
  if req.fee < 0 then (l, .error .invalidAmount) else
  match getTransactionByIdempotencyKey l req.idempotencyKey with
  | some existingTxn =>
      (l, buildIdempotentTransferResponse l existingTxn.id req.fromUserID req.toUserID)
  | none =>
    match executeTransfer f l req with
    | .error e => (l, .error e)
    | .ok (l', txnID, senderBalance, recipientBalance) =>
      (l', .ok ⟨txnID, "posted", senderBalance, recipientBalance, transferMsg⟩)

-- ==============================================
-- The `services`-package variant
-- (src/internal/services/wallet_services.go with
--  src/internal/repository/wallet_repository.go)
-- ==============================================

/-- `CheckIdempotency` (wallet_repository.go):
`SELECT id FROM transactions WHERE idempotency_key = $1`; returns the
existing transaction id when the key exists. -/
def checkIdempotency (l : Ledger) (key : String) : Option Int :=
  (l.transactions.find? (fun t => t.idempotencyKey == key)).map Txn.id

/-- `SELECT id, balance FROM accounts WHERE external_id = 'sys_reserve'`
(the repository Deposit/Withdraw reserve lookup has no type filter). -/
def findByExternalID (accs : List Account) (externalID : String) : Option Account :=
  accs.find? (fun a => a.externalId == some externalID)

/-- `repository.Deposit` (wallet_repository.go, first snapshot): one unit of
work that re-checks the idempotency key inside the transaction, reads the
user and reserve accounts (without `FOR UPDATE`), inserts the transaction
(kind `deposit`, status `posted`) and both postings, reads back the
trigger-updated balance, and commits.  In the replay branch the balance
scan error is ignored, so a missing account yields balance 0. -/
def repoDeposit (f : FailSpec) (l : Ledger) (userID amount : Int) (key reference : String) :
    Ledger × Except Err (Int × Int) :=
  if f.beginTx then (l, .error (.infra "begin")) else
  match getTransactionByIdempotencyKey l key with
  | some existingTxn =>
      (l, .ok (existingTxn.id, ((getAccountByUserID l userID).map Account.balance).getD 0))
  | none =>
  match getAccountByUserID l userID with
  | none => (l, .error .accountNotFound)
  | some userAccount =>
  match findByExternalID l.accounts "sys_reserve" with
  | none => (l, .error (.infra "reserve account not found"))
  | some reserveAccount =>
    if f.createTxn then (l, .error (.infra "create transaction")) else
    let c := createTransaction l key "deposit" "posted" reference
    if f.firstPosting then (l, .error (.infra "create posting")) else
    let l2 := createPosting c.1 ⟨c.2, reserveAccount.id, -amount⟩
    if f.secondPosting then (l, .error (.infra "create posting")) else
    let l3 := createPosting l2 ⟨c.2, userAccount.id, amount⟩
    match findByUser l3.accounts userID with
    | none => (l, .error (.infra "get updated balance"))
    | some updated =>
      if f.commitTx then (l, .error (.infra "commit")) else
      if enforceDoubleEntry l3 c.2 then (l3, .ok (c.2, updated.balance))
      else (l, .error (.infra "integrity"))

/-- `services.Deposit` (wallet_services.go): key present → **idempotency
lookup first** (replay short-circuits) → amount validation → repository
deposit → negative-balance sanity check.  Note the order: the idempotency
check precedes amount validation in this variant. -/
def servicesDeposit (f : FailSpec) (l : Ledger) (req : DepositRequest) :
    Ledger × Except Err TransactionResponse :=
  if req.idempotencyKey == "" then (l, .error .invalidIdempotencyKey) else
  match checkIdempotency l req.idempotencyKey with
  | some existingTxnID =>
    match getAccountByUserID l req.userID with
    | none => (l, .error .accountNotFound)
    | some account =>
        (l, .ok ⟨existingTxnID, "posted", account.balance, req.reference, idempotentMsg⟩)
  | none =>
  match validateDepositAmount req.amount with
  | some e => (l, .error e)
  | none =>
    match repoDeposit f l req.userID req.amount req.idempotencyKey req.reference with
    | (l', .error e) => (l', .error e)
    | (l', .ok (txnID, newBalance)) =>
      if newBalance < 0 then (l', .error .negativeBalance)
      else (l', .ok ⟨txnID, "posted", newBalance, req.reference, depositMsg⟩)

-- ==============================================
-- Well-formedness of a ledger state
-- ==============================================

/-- Data-model invariants of the schema that the proofs need:
account ids are unique (primary key), user-owned accounts have type
`user` (provisioning), transaction ids come from the sequence (all below
`nextTxnId`), and postings reference existing transaction ids. -/
def WellFormed (l : Ledger) : Prop :=
  (∀ a ∈ l.accounts, ∀ b ∈ l.accounts, a.id = b.id → a = b) ∧
  (∀ a ∈ l.accounts, a.userId ≠ none → a.typ = "user") ∧
  (∀ t ∈ l.transactions, t.id < l.nextTxnId) ∧
  (∀ p ∈ l.postings, p.transactionId < l.nextTxnId)

instance (l : Ledger) : Decidable (WellFormed l) := by
  unfold WellFormed; infer_instance

-- ==============================================
-- Concrete states for witnesses (spec §8 scenarios)
-- ==============================================

/-- User A: balance 500000 kobo. -/
def accA : Account := ⟨1, "user", 500000, some 1, Option.none⟩

/-- User B: balance 50000 kobo. -/
def accB : Account := ⟨2, "user", 50000, some 2, Option.none⟩

/-- The reserve system account. -/
def accReserve : Account := ⟨3, "system", 0, Option.none, some "sys_reserve"⟩

/-- The fee system account. -/
def accFee : Account := ⟨4, "system", 0, Option.none, some "sys_fee"⟩

/-- Initial example ledger: two users, the two system accounts, no
transactions. -/
def exLedger : Ledger := ⟨[accA, accB, accReserve, accFee], [], [], 1⟩

-- ==============================================
-- Helper lemmas: the balance trigger and queries
-- ==============================================

lemma applyPosting_id (p : Posting) (a : Account) : (applyPosting p a).id = a.id := by
  unfold applyPosting; split <;> rfl

lemma applyPosting_userId (p : Posting) (a : Account) : (applyPosting p a).userId = a.userId := by
  unfold applyPosting; split <;> rfl

lemma applyPosting_typ (p : Posting) (a : Account) : (applyPosting p a).typ = a.typ := by
  unfold applyPosting; split <;> rfl

lemma applyPosting_externalId (p : Posting) (a : Account) :
    (applyPosting p a).externalId = a.externalId := by
  unfold applyPosting; split <;> rfl

lemma applyPosting_of_ne {p : Posting} {a : Account} (h : a.id ≠ p.accountId) :
    applyPosting p a = a := if_neg h

lemma applyPosting_of_eq {p : Posting} {a : Account} (h : a.id = p.accountId) :
    applyPosting p a = { a with balance := a.balance + p.amount } := if_pos h

lemma findByUser_update (accs : List Account) (p : Posting) (u : Int) :
    findByUser (updateAccountBalanceOnPosting accs p) u
      = (findByUser accs u).map (applyPosting p) := by
  unfold findByUser updateAccountBalanceOnPosting
  rw [List.find?_map]
  have hfun : ((fun a : Account => a.userId == some u) ∘ applyPosting p)
      = (fun a : Account => a.userId == some u) := by
    funext a; simp [Function.comp, applyPosting_userId]
  rw [hfun]

lemma findSystem_update (accs : List Account) (p : Posting) (e : String) :
    findSystem (updateAccountBalanceOnPosting accs p) e
      = (findSystem accs e).map (applyPosting p) := by
  unfold findSystem updateAccountBalanceOnPosting
  rw [List.find?_map]
  have hfun : ((fun a : Account => a.externalId == some e && a.typ == "system") ∘ applyPosting p)
      = (fun a : Account => a.externalId == some e && a.typ == "system") := by
    funext a; simp [Function.comp, applyPosting_externalId, applyPosting_typ]
  rw [hfun]

lemma find?_append_none {α : Type} (p : α → Bool) (l₁ l₂ : List α) (h : l₁.find? p = none) :
    (l₁ ++ l₂).find? p = l₂.find? p := by
  rw [List.find?_append, h, Option.none_or]

lemma filter_tid_eq_nil (ps : List Posting) (n : Int) (h : ∀ p ∈ ps, p.transactionId < n) :
    ps.filter (fun p => p.transactionId == n) = [] := by
  rw [List.filter_eq_nil_iff]
  intro p hp
  simp only [beq_iff_eq]
  exact Int.ne_of_lt (h p hp)

lemma findByUser_mem {accs : List Account} {u : Int} {a : Account}
    (h : findByUser accs u = some a) : a ∈ accs ∧ a.userId = some u := by
  unfold findByUser at h
  refine ⟨List.mem_of_find?_eq_some h, ?_⟩
  simpa using List.find?_some h

lemma findSystem_mem {accs : List Account} {e : String} {a : Account}
    (h : findSystem accs e = some a) :
    a ∈ accs ∧ a.externalId = some e ∧ a.typ = "system" := by
  unfold findSystem at h
  refine ⟨List.mem_of_find?_eq_some h, ?_⟩
  simpa using List.find?_some h

/-- A user account and a system account found in a well-formed ledger are
different rows. -/
lemma user_system_id_ne {l : Ledger} {u : Int} {e : String} {a b : Account}
    (hWF : WellFormed l)
    (ha : findByUser l.accounts u = some a) (hb : findSystem l.accounts e = some b) :
    a.id ≠ b.id := by
  obtain ⟨hma, hua⟩ := findByUser_mem ha
  obtain ⟨hmb, _, htb⟩ := findSystem_mem hb
  intro hid
  have hab := hWF.1 a hma b hmb hid
  have hta : a.typ = "user" := hWF.2.1 a hma (by simp [hua])
  rw [hab, htb] at hta
  exact absurd hta (by decide)

/-- Accounts of two different users in a well-formed ledger are different
rows. -/
lemma user_user_id_ne {l : Ledger} {u v : Int} {a b : Account}
    (hWF : WellFormed l) (huv : u ≠ v)
    (ha : findByUser l.accounts u = some a) (hb : findByUser l.accounts v = some b) :
    a.id ≠ b.id := by
  obtain ⟨hma, hua⟩ := findByUser_mem ha
  obtain ⟨hmb, hub⟩ := findByUser_mem hb
  intro hid
  have hab := hWF.1 a hma b hmb hid
  rw [hab, hub] at hua
  exact huv (by simpa using hua.symm)

-- ==============================================
-- Helper: shape of a committed two-posting unit of work
-- ==============================================

/-- The state committed by a two-posting unit of work: one transaction
(status `posted`) and two postings, with the balance trigger applied. -/
def commitTwo (l : Ledger) (key kind ref : String) (aid1 amt1 aid2 amt2 : Int) : Ledger :=
  createPosting
    (createPosting (createTransaction l key kind "posted" ref).1 ⟨l.nextTxnId, aid1, amt1⟩)
    ⟨l.nextTxnId, aid2, amt2⟩

lemma commitTwo_transactions (l : Ledger) (key kind ref : String) (a1 m1 a2 m2 : Int) :
    (commitTwo l key kind ref a1 m1 a2 m2).transactions
      = l.transactions ++ [⟨l.nextTxnId, key, kind, "posted", ref⟩] := rfl

lemma commitTwo_postings (l : Ledger) (key kind ref : String) (a1 m1 a2 m2 : Int) :
    (commitTwo l key kind ref a1 m1 a2 m2).postings
      = l.postings ++ [⟨l.nextTxnId, a1, m1⟩, ⟨l.nextTxnId, a2, m2⟩] := by
  simp [commitTwo, createPosting, createTransaction]

lemma commitTwo_accounts (l : Ledger) (key kind ref : String) (a1 m1 a2 m2 : Int) :
    (commitTwo l key kind ref a1 m1 a2 m2).accounts
      = updateAccountBalanceOnPosting
          (updateAccountBalanceOnPosting l.accounts ⟨l.nextTxnId, a1, m1⟩)
          ⟨l.nextTxnId, a2, m2⟩ := rfl

lemma commitTwo_nextTxnId (l : Ledger) (key kind ref : String) (a1 m1 a2 m2 : Int) :
    (commitTwo l key kind ref a1 m1 a2 m2).nextTxnId = l.nextTxnId + 1 := rfl

lemma postingsOf_commitTwo (l : Ledger) (key kind ref : String) (a1 m1 a2 m2 : Int)
    (hfr : ∀ p ∈ l.postings, p.transactionId < l.nextTxnId) :
    postingsOf (commitTwo l key kind ref a1 m1 a2 m2) l.nextTxnId
      = [⟨l.nextTxnId, a1, m1⟩, ⟨l.nextTxnId, a2, m2⟩] := by
  unfold postingsOf
  rw [commitTwo_postings, List.filter_append, filter_tid_eq_nil _ _ hfr]
  simp

lemma enforce_commitTwo (l : Ledger) (key kind ref : String) (a1 m1 a2 m2 : Int)
    (hfr : ∀ p ∈ l.postings, p.transactionId < l.nextTxnId) :
    enforceDoubleEntry (commitTwo l key kind ref a1 m1 a2 m2) l.nextTxnId
      = (m1 + m2 == 0) := by
  unfold enforceDoubleEntry sumAmounts
  rw [postingsOf_commitTwo _ _ _ _ _ _ _ _ hfr]
  simp [Int.add_assoc]

lemma getTxnByKey_commitTwo (l : Ledger) (key kind ref : String) (a1 m1 a2 m2 : Int)
    (hfresh : getTransactionByIdempotencyKey l key = none) :
    getTransactionByIdempotencyKey (commitTwo l key kind ref a1 m1 a2 m2) key
      = some ⟨l.nextTxnId, key, kind, "posted", ref⟩ := by
  unfold getTransactionByIdempotencyKey at *
  rw [commitTwo_transactions, find?_append_none _ _ _ hfresh]
  simp [List.find?]

lemma findByUser_commitTwo (l : Ledger) (key kind ref : String) (a1 m1 a2 m2 u : Int) :
    findByUser (commitTwo l key kind ref a1 m1 a2 m2).accounts u
      = ((findByUser l.accounts u).map (applyPosting ⟨l.nextTxnId, a1, m1⟩)).map
          (applyPosting ⟨l.nextTxnId, a2, m2⟩) := by
  rw [commitTwo_accounts, findByUser_update, findByUser_update]

lemma findSystem_commitTwo (l : Ledger) (key kind ref : String) (a1 m1 a2 m2 : Int)
    (e : String) :
    findSystem (commitTwo l key kind ref a1 m1 a2 m2).accounts e
      = ((findSystem l.accounts e).map (applyPosting ⟨l.nextTxnId, a1, m1⟩)).map
          (applyPosting ⟨l.nextTxnId, a2, m2⟩) := by
  rw [commitTwo_accounts, findSystem_update, findSystem_update]

-- ==============================================
-- Inversion lemmas: what a successful unit of work implies
-- ==============================================

/-- Inversion of a successful `executeDeposit`: both accounts were found,
the returned id is the fresh transaction id, the returned balance is the
locked balance plus the amount, and the committed state is the two-posting
commit (debit reserve, credit user). -/
lemma executeDeposit_ok {f : FailSpec} {l : Ledger} {req : DepositRequest}
    {l' : Ledger} {tid bal : Int}
    (h : executeDeposit f l req = .ok (l', tid, bal)) :
    ∃ ua ra, getAccountByUserID l req.userID = some ua ∧
      getSystemAccount l "sys_reserve" = some ra ∧
      tid = l.nextTxnId ∧ bal = ua.balance + req.amount ∧
      l' = commitTwo l req.idempotencyKey "deposit" req.reference
             ra.id (-req.amount) ua.id req.amount := by
  simp only [executeDeposit] at h
  repeat' split at h
  all_goals try exact Except.noConfusion h
  simp only [Except.ok.injEq, Prod.mk.injEq] at h
  obtain ⟨hl, ht, hb2⟩ := h
  exact ⟨_, _, by assumption, by assumption, by rw [← ht]; rfl, by rw [← hb2],
    by rw [← hl]; rfl⟩

/-- Inversion of a successful `executeWithdraw`: additionally the balance
check under the lock passed, and the commit debits the user and credits
the reserve. -/
lemma executeWithdraw_ok {f : FailSpec} {l : Ledger} {req : WithdrawRequest}
    {l' : Ledger} {tid bal : Int}
    (h : executeWithdraw f l req = .ok (l', tid, bal)) :
    ∃ ua ra, getAccountByUserID l req.userID = some ua ∧
      getSystemAccount l "sys_reserve" = some ra ∧
      req.amount ≤ ua.balance ∧
      tid = l.nextTxnId ∧ bal = ua.balance - req.amount ∧
      l' = commitTwo l req.idempotencyKey "withdrawal" req.reference
             ua.id (-req.amount) ra.id req.amount := by
  simp only [executeWithdraw] at h
  repeat' split at h
  all_goals try exact Except.noConfusion h
  simp only [Except.ok.injEq, Prod.mk.injEq] at h
  obtain ⟨hl, ht, hb2⟩ := h
  exact ⟨_, _, by assumption, by assumption, Int.not_lt.mp (by assumption),
    by rw [← ht]; rfl, by rw [← hb2], by rw [← hl]; rfl⟩

/-- Inversion of a successful fee step. -/
lemma transferFeeStep_ok {f : FailSpec} {l3 : Ledger} {tid fee : Int} {l4 : Ledger}
    (h : transferFeeStep f l3 tid fee = .ok l4) :
    (fee ≤ 0 ∧ l4 = l3) ∨
    (0 < fee ∧ ∃ fa, getSystemAccount l3 "sys_fee" = some fa ∧
      l4 = createPosting l3 ⟨tid, fa.id, fee⟩) := by
  simp only [transferFeeStep] at h
  repeat' split at h
  all_goals try exact Except.noConfusion h
  · right
    refine ⟨by assumption, _, by assumption, ?_⟩
    simp only [Except.ok.injEq] at h
    rw [← h]
  · left
    refine ⟨Int.not_lt.mp (by assumption), ?_⟩
    simp only [Except.ok.injEq] at h
    rw [← h]

/-- A successful fee step on a two-posting transfer commit yields either
the commit itself (zero fee) or the commit plus a fee posting on the fee
account found in the original ledger. -/
lemma transferFee_commit_shape {f : FailSpec} {l : Ledger} {req : TransferRequest}
    {said raid : Int} {l4 : Ledger}
    (hfs : transferFeeStep f
      (commitTwo l req.idempotencyKey "p2p" req.reference
        said (-(req.amount + req.fee)) raid req.amount)
      l.nextTxnId req.fee = .ok l4) :
    (req.fee ≤ 0 ∧ l4 = commitTwo l req.idempotencyKey "p2p" req.reference
        said (-(req.amount + req.fee)) raid req.amount) ∨
    (0 < req.fee ∧ ∃ fa, getSystemAccount l "sys_fee" = some fa ∧
      l4 = createPosting
        (commitTwo l req.idempotencyKey "p2p" req.reference
          said (-(req.amount + req.fee)) raid req.amount)
        ⟨l.nextTxnId, fa.id, req.fee⟩) := by
  rcases transferFeeStep_ok hfs with ⟨hfee, hl4⟩ | ⟨hfee, fa3, hfa3, hl4⟩
  · exact Or.inl ⟨hfee, hl4⟩
  · right
    refine ⟨hfee, ?_⟩
    have hfind : findSystem (commitTwo l req.idempotencyKey "p2p" req.reference
        said (-(req.amount + req.fee)) raid req.amount).accounts "sys_fee" = some fa3 := hfa3
    rw [findSystem_commitTwo] at hfind
    rcases hfa : findSystem l.accounts "sys_fee" with _ | fa
    · rw [hfa] at hfind; simp at hfind
    · rw [hfa] at hfind
      simp only [Option.map_some'] at hfind
      have hid : fa3.id = fa.id := by
        rw [← Option.some.inj hfind, applyPosting_id, applyPosting_id]
      exact ⟨fa, hfa, by rw [hl4, hid]⟩

set_option maxHeartbeats 1000000 in
/-- Inversion of a successful `executeTransfer` (for distinct parties):
both user accounts were found by user id, the balance check of
`amount + fee` passed, the returned balances are sender-minus-total-debit
and recipient-plus-amount, and the committed state is the two-posting
commit, plus a fee posting when `fee > 0`. -/
lemma executeTransfer_ok {f : FailSpec} {l : Ledger} {req : TransferRequest}
    {l' : Ledger} {tid sb rb : Int}
    (hne : req.fromUserID ≠ req.toUserID)
    (h : executeTransfer f l req = .ok (l', tid, sb, rb)) :
    ∃ sa ra, getAccountByUserID l req.fromUserID = some sa ∧
      getAccountByUserID l req.toUserID = some ra ∧
      req.amount + req.fee ≤ sa.balance ∧
      tid = l.nextTxnId ∧ sb = sa.balance - (req.amount + req.fee) ∧
      rb = ra.balance + req.amount ∧
      ((req.fee ≤ 0 ∧
         l' = commitTwo l req.idempotencyKey "p2p" req.reference
                sa.id (-(req.amount + req.fee)) ra.id req.amount) ∨
       (0 < req.fee ∧ ∃ fa, getSystemAccount l "sys_fee" = some fa ∧
         l' = createPosting
                (commitTwo l req.idempotencyKey "p2p" req.reference
                  sa.id (-(req.amount + req.fee)) ra.id req.amount)
                ⟨l.nextTxnId, fa.id, req.fee⟩)) := by
  have hbeq : (req.toUserID == req.fromUserID) = false := by
    simp only [beq_eq_false_iff_ne, ne_eq]
    exact fun hh => hne hh.symm
  rcases lt_or_le req.toUserID req.fromUserID with hlt | hle
  · simp only [executeTransfer, transferLockOrder, if_pos hlt, hbeq, Bool.false_eq_true,
      if_false, beq_self_eq_true, if_true] at h
    repeat' split at h
    all_goals try exact Except.noConfusion h
    rename_i hb1 hb2 x2 ra hra hb3 x1 sa hsa hnlt hb4 hb5 hb6 x0 l4 hfs hb7 henf
    simp only [Except.ok.injEq, Prod.mk.injEq] at h
    obtain ⟨hl, ht, hsb, hrb⟩ := h
    have hfs' : transferFeeStep f
        (commitTwo l req.idempotencyKey "p2p" req.reference
          sa.id (-(req.amount + req.fee)) ra.id req.amount)
        l.nextTxnId req.fee = .ok l4 := hfs
    have hshape := transferFee_commit_shape hfs'
    exact ⟨sa, ra, hsa, hra, Int.not_lt.mp hnlt, by rw [← ht]; rfl, hsb.symm, hrb.symm,
      by rw [← hl]; exact hshape⟩
  · simp only [executeTransfer, transferLockOrder, if_neg (not_lt.mpr hle),
      beq_self_eq_true, if_true] at h
    repeat' split at h
    all_goals try exact Except.noConfusion h
    rename_i hb1 hb2 x2 sa hsa hb3 x1 ra hra hnlt hb4 hb5 hb6 x0 l4 hfs hb7 henf
    simp only [Except.ok.injEq, Prod.mk.injEq] at h
    obtain ⟨hl, ht, hsb, hrb⟩ := h
    have hfs' : transferFeeStep f
        (commitTwo l req.idempotencyKey "p2p" req.reference
          sa.id (-(req.amount + req.fee)) ra.id req.amount)
        l.nextTxnId req.fee = .ok l4 := hfs
    have hshape := transferFee_commit_shape hfs'
    exact ⟨sa, ra, hsa, hra, Int.not_lt.mp hnlt, by rw [← ht]; rfl, hsb.symm, hrb.symm,
      by rw [← hl]; exact hshape⟩

/-- Inversion of a successful `Deposit` with a fresh idempotency key:
validation passed, both accounts exist, the post-state is the two-posting
commit, and the response carries the fresh id and the incremented balance
(which passed the non-negativity check). -/
lemma Deposit_ok_inv {f : FailSpec} {l : Ledger} {req : DepositRequest}
    {l' : Ledger} {r : TransactionResponse}
    (hfresh : getTransactionByIdempotencyKey l req.idempotencyKey = none)
    (h : Deposit f l req = (l', .ok r)) :
    req.idempotencyKey ≠ "" ∧ validateDepositAmount req.amount = none ∧
    ∃ ua ra, getAccountByUserID l req.userID = some ua ∧
      getSystemAccount l "sys_reserve" = some ra ∧
      0 ≤ ua.balance + req.amount ∧
      l' = commitTwo l req.idempotencyKey "deposit" req.reference
             ra.id (-req.amount) ua.id req.amount ∧
      r = ⟨l.nextTxnId, "posted", ua.balance + req.amount, req.reference, depositMsg⟩ := by
  simp only [Deposit] at h
  split at h
  · exact absurd h (by simp)
  split at h
  · exact absurd h (by simp)
  simp only [hfresh] at h
  split at h
  · exact absurd h (by simp)
  split at h
  · exact absurd h (by simp)
  rename_i hkey xv hval x1 l3 tid bal hexec hneg
  simp only [Prod.mk.injEq, Except.ok.injEq] at h
  obtain ⟨hl, hr⟩ := h
  obtain ⟨ua, ra, hua, hra, htid, hbal, hcommit⟩ := executeDeposit_ok hexec
  refine ⟨by simpa using hkey, hval, ua, ra, hua, hra, ?_, ?_, ?_⟩
  · rw [hbal] at hneg; exact Int.not_lt.mp hneg
  · rw [← hl, hcommit]
  · rw [← hr, htid, hbal]

/-- Inversion of a successful `Withdraw` with a fresh idempotency key. -/
lemma Withdraw_ok_inv {f : FailSpec} {l : Ledger} {req : WithdrawRequest}
    {l' : Ledger} {r : TransactionResponse}
    (hfresh : getTransactionByIdempotencyKey l req.idempotencyKey = none)
    (h : Withdraw f l req = (l', .ok r)) :
    req.idempotencyKey ≠ "" ∧ validateWithdrawAmount req.amount = none ∧
    ∃ ua ra, getAccountByUserID l req.userID = some ua ∧
      getSystemAccount l "sys_reserve" = some ra ∧
      req.amount ≤ ua.balance ∧
      l' = commitTwo l req.idempotencyKey "withdrawal" req.reference
             ua.id (-req.amount) ra.id req.amount ∧
      r = ⟨l.nextTxnId, "posted", ua.balance - req.amount, req.reference, withdrawMsg⟩ := by
  simp only [Withdraw] at h
  split at h
  · exact absurd h (by simp)
  split at h
  · exact absurd h (by simp)
  simp only [hfresh] at h
  split at h
  · exact absurd h (by simp)
  split at h
  · exact absurd h (by simp)
  rename_i hkey xv hval x1 l3 tid bal hexec hneg
  simp only [Prod.mk.injEq, Except.ok.injEq] at h
  obtain ⟨hl, hr⟩ := h
  obtain ⟨ua, ra, hua, hra, hsuff, htid, hbal, hcommit⟩ := executeWithdraw_ok hexec
  refine ⟨by simpa using hkey, hval, ua, ra, hua, hra, hsuff, ?_, ?_⟩
  · rw [← hl, hcommit]
  · rw [← hr, htid, hbal]

/-- Inversion of a successful `Transfer` with a fresh idempotency key. -/
lemma Transfer_ok_inv {f : FailSpec} {l : Ledger} {req : TransferRequest}
    {l' : Ledger} {r : TransferResponse}
    (hfresh : getTransactionByIdempotencyKey l req.idempotencyKey = none)
    (h : Transfer f l req = (l', .ok r)) :
    req.idempotencyKey ≠ "" ∧ req.fromUserID ≠ req.toUserID ∧
    validateTransferAmount req.amount = none ∧ 0 ≤ req.fee ∧
    ∃ sa ra, getAccountByUserID l req.fromUserID = some sa ∧
      getAccountByUserID l req.toUserID = some ra ∧
      req.amount + req.fee ≤ sa.balance ∧
      r = ⟨l.nextTxnId, "posted", sa.balance - (req.amount + req.fee),
            ra.balance + req.amount, transferMsg⟩ ∧
      ((req.fee ≤ 0 ∧
         l' = commitTwo l req.idempotencyKey "p2p" req.reference
                sa.id (-(req.amount + req.fee)) ra.id req.amount) ∨
       (0 < req.fee ∧ ∃ fa, getSystemAccount l "sys_fee" = some fa ∧
         l' = createPosting
                (commitTwo l req.idempotencyKey "p2p" req.reference
                  sa.id (-(req.amount + req.fee)) ra.id req.amount)
                ⟨l.nextTxnId, fa.id, req.fee⟩)) := by
  simp only [Transfer] at h
  split at h
  · exact absurd h (by simp)
  split at h
  · exact absurd h (by simp)
  split at h
  · exact absurd h (by simp)
  split at h
  · exact absurd h (by simp)
  simp only [hfresh] at h
  split at h
  · exact absurd h (by simp)
  rename_i hkey hne xv hval hfee x1 l4 tid sb rb hexec
  simp only [Prod.mk.injEq, Except.ok.injEq] at h
  obtain ⟨hl, hr⟩ := h
  have hne' : req.fromUserID ≠ req.toUserID := by simpa using hne
  obtain ⟨sa, ra, hsa, hra, hsuff, htid, hsb, hrb, hshape⟩ := executeTransfer_ok hne' hexec
  refine ⟨by simpa using hkey, hne', hval, Int.not_lt.mp hfee, sa, ra, hsa, hra, hsuff,
    ?_, ?_⟩
  · rw [← hr, htid, hsb, hrb]
  · rw [← hl]; exact hshape

-- ==============================================
-- Replay path: forward evaluation lemmas
-- ==============================================

/-- When the idempotency key is non-empty, the amount is valid, the key
matches some stored transaction (of any kind), and the user's account
exists, `Deposit` replays: it returns the stored transaction's id, status
`posted`, the current balance, the new request's reference, and leaves the
state untouched. -/
lemma Deposit_replay {f : FailSpec} {l : Ledger} {req : DepositRequest}
    {t : Txn} {acc : Account}
    (hkey : req.idempotencyKey ≠ "")
    (hval : validateDepositAmount req.amount = none)
    (hlook : getTransactionByIdempotencyKey l req.idempotencyKey = some t)
    (hacc : getAccountByUserID l req.userID = some acc) :
    Deposit f l req = (l, .ok ⟨t.id, "posted", acc.balance, req.reference, idempotentMsg⟩) := by
  have hk : (req.idempotencyKey == "") = false := beq_eq_false_iff_ne.mpr hkey
  simp only [Deposit, hk, Bool.false_eq_true, if_false, hval, hlook,
    buildIdempotentResponse, hacc]

/-- Replay behaviour of `Withdraw`: same as `Deposit_replay`, for any
stored transaction under the key, regardless of its kind or parameters. -/
lemma Withdraw_replay {f : FailSpec} {l : Ledger} {req : WithdrawRequest}
    {t : Txn} {acc : Account}
    (hkey : req.idempotencyKey ≠ "")
    (hval : validateWithdrawAmount req.amount = none)
    (hlook : getTransactionByIdempotencyKey l req.idempotencyKey = some t)
    (hacc : getAccountByUserID l req.userID = some acc) :
    Withdraw f l req = (l, .ok ⟨t.id, "posted", acc.balance, req.reference, idempotentMsg⟩) := by
  have hk : (req.idempotencyKey == "") = false := beq_eq_false_iff_ne.mpr hkey
  simp only [Withdraw, hk, Bool.false_eq_true, if_false, hval, hlook,
    buildIdempotentResponse, hacc]

/-- Replay behaviour of `Transfer`: returns the stored transaction's id and
both parties' current balances, for any stored transaction under the key. -/
lemma Transfer_replay {f : FailSpec} {l : Ledger} {req : TransferRequest}
    {t : Txn} {sacc racc : Account}
    (hkey : req.idempotencyKey ≠ "")
    (hne : req.fromUserID ≠ req.toUserID)
    (hval : validateTransferAmount req.amount = none)
    (hfee : ¬ req.fee < 0)
    (hlook : getTransactionByIdempotencyKey l req.idempotencyKey = some t)
    (hs : getAccountByUserID l req.fromUserID = some sacc)
    (hr : getAccountByUserID l req.toUserID = some racc) :
    Transfer f l req = (l, .ok ⟨t.id, "posted", sacc.balance, racc.balance, idempotentMsg⟩) := by
  have hk : (req.idempotencyKey == "") = false := beq_eq_false_iff_ne.mpr hkey
  have hb : (req.fromUserID == req.toUserID) = false := beq_eq_false_iff_ne.mpr hne
  simp only [Transfer, hk, hb, Bool.false_eq_true, if_false, hval, if_neg hfee, hlook,
    buildIdempotentTransferResponse, hs, hr]

-- ==============================================
-- Account lookups in a committed state
-- ==============================================

lemma findByUser_createPosting (l : Ledger) (p : Posting) (u : Int) :
    findByUser (createPosting l p).accounts u
      = (findByUser l.accounts u).map (applyPosting p) := by
  rw [show (createPosting l p).accounts = updateAccountBalanceOnPosting l.accounts p from rfl,
    findByUser_update]

/-- The account credited second by a two-posting commit, when distinct from
the first-debited one, ends with its balance increased by the second
posting's amount. -/
lemma findByUser_commitTwo_second {l : Ledger} {u : Int} {ua : Account}
    (hua : getAccountByUserID l u = some ua)
    (key kind ref : String) (otherId m1 m2 : Int)
    (hne : ua.id ≠ otherId) :
    findByUser (commitTwo l key kind ref otherId m1 ua.id m2).accounts u
      = some { ua with balance := ua.balance + m2 } := by
  rw [findByUser_commitTwo]
  have hua' : findByUser l.accounts u = some ua := hua
  rw [hua']
  simp only [Option.map_some']
  rw [applyPosting_of_ne (p := ⟨l.nextTxnId, otherId, m1⟩) hne]
  rw [applyPosting_of_eq rfl]

/-- The account debited first by a two-posting commit, when distinct from
the second-credited one, ends with its balance changed by the first
posting's amount. -/
lemma findByUser_commitTwo_first {l : Ledger} {u : Int} {ua : Account}
    (hua : getAccountByUserID l u = some ua)
    (key kind ref : String) (m1 otherId m2 : Int)
    (hne : ua.id ≠ otherId) :
    findByUser (commitTwo l key kind ref ua.id m1 otherId m2).accounts u
      = some { ua with balance := ua.balance + m1 } := by
  rw [findByUser_commitTwo]
  have hua' : findByUser l.accounts u = some ua := hua
  rw [hua']
  simp only [Option.map_some']
  rw [applyPosting_of_eq (p := ⟨l.nextTxnId, ua.id, m1⟩) rfl]
  rw [applyPosting_of_ne hne]

lemma findSystem_createPosting (l : Ledger) (p : Posting) (e : String) :
    findSystem (createPosting l p).accounts e
      = (findSystem l.accounts e).map (applyPosting p) := by
  rw [show (createPosting l p).accounts = updateAccountBalanceOnPosting l.accounts p from rfl,
    findSystem_update]

lemma postingsOf_createPosting (l : Ledger) (p : Posting) (tid : Int)
    (hp : p.transactionId = tid) :
    postingsOf (createPosting l p) tid = postingsOf l tid ++ [p] := by
  unfold postingsOf createPosting
  simp [List.filter_append, hp]

lemma validateDepositAmount_none_pos {amount : Int}
    (h : validateDepositAmount amount = none) : 0 < amount := by
  unfold validateDepositAmount at h
  split_ifs at h with h1 h2 h3
  all_goals try simp at h
  omega

-- ==============================================
-- Forward evaluation: Withdraw under no failure
-- ==============================================

lemma executeWithdraw_noFail_ok {l : Ledger} {req : WithdrawRequest} {ua ra : Account}
    (hua : getAccountByUserID l req.userID = some ua)
    (hra : getSystemAccount l "sys_reserve" = some ra)
    (hsuff : ¬ ua.balance < req.amount)
    (hfr : ∀ p ∈ l.postings, p.transactionId < l.nextTxnId) :
    executeWithdraw noFail l req
      = .ok (commitTwo l req.idempotencyKey "withdrawal" req.reference
               ua.id (-req.amount) ra.id req.amount,
             l.nextTxnId, ua.balance - req.amount) := by
  have henf : enforceDoubleEntry
      (commitTwo l req.idempotencyKey "withdrawal" req.reference
        ua.id (-req.amount) ra.id req.amount) l.nextTxnId = true := by
    rw [enforce_commitTwo _ _ _ _ _ _ _ _ hfr]
    simp
  simp only [executeWithdraw, noFail, Bool.false_eq_true, if_false, hua, hra, if_neg hsuff]
  show (if enforceDoubleEntry
      (commitTwo l req.idempotencyKey "withdrawal" req.reference
        ua.id (-req.amount) ra.id req.amount) l.nextTxnId = true then _ else _) = _
  rw [henf]
  rfl

lemma executeWithdraw_insufficient {f : FailSpec} {l : Ledger} {req : WithdrawRequest}
    {ua : Account}
    (hb : f.beginTx = false) (hl1 : f.lockFirst = false)
    (hua : getAccountByUserID l req.userID = some ua)
    (hlt : ua.balance < req.amount) :
    executeWithdraw f l req = .error .insufficientBalance := by
  simp only [executeWithdraw, hb, hl1, Bool.false_eq_true, if_false, hua, if_pos hlt]

/-- Full forward run of a sufficient-balance `Withdraw` with no injected
failure: commits the two-posting state and returns the decremented balance. -/
lemma Withdraw_noFail_ok {l : Ledger} {req : WithdrawRequest} {ua ra : Account}
    (hkey : req.idempotencyKey ≠ "")
    (hval : validateWithdrawAmount req.amount = none)
    (hfresh : getTransactionByIdempotencyKey l req.idempotencyKey = none)
    (hua : getAccountByUserID l req.userID = some ua)
    (hra : getSystemAccount l "sys_reserve" = some ra)
    (hsuff : ¬ ua.balance < req.amount)
    (hfr : ∀ p ∈ l.postings, p.transactionId < l.nextTxnId) :
    Withdraw noFail l req
      = (commitTwo l req.idempotencyKey "withdrawal" req.reference
           ua.id (-req.amount) ra.id req.amount,
         .ok ⟨l.nextTxnId, "posted", ua.balance - req.amount, req.reference, withdrawMsg⟩) := by
  have hk : (req.idempotencyKey == "") = false := beq_eq_false_iff_ne.mpr hkey
  have hex := executeWithdraw_noFail_ok hua hra hsuff hfr
  have hneg : ¬ (ua.balance - req.amount < 0) := by omega
  simp only [Withdraw, hk, Bool.false_eq_true, if_false, hval, hfresh, hex, if_neg hneg]

-- ==============================================
-- Concrete runs for witnesses
-- ==============================================

/-- Spec §8 scenario: Deposit(A, 100000, key="d1"). -/
def exDepositReq : DepositRequest := ⟨1, 100000, "d1", "r"⟩

/-- The ledger after the scenario deposit. -/
def exDepositState : Ledger := (Deposit noFail exLedger exDepositReq).1

-- ==============================================
-- Claim theorems
-- ==============================================

/-- C6, counterexample: the claimed symmetry equation
`lock_order(a,b) = swap(lock_order(b,a))` is false for the ascending lock
order `executeTransfer` computes: at a=1, b=2 the left side is (1,2) and
the right side is (2,1). -/
theorem lock_order_swap_equation_cex :
    transferLockOrder 1 2 ≠ Prod.swap (transferLockOrder 2 1) := by decide

/-- C6 (amended): the lock order computed by `executeTransfer` depends only
on the unordered pair — it is invariant under swapping the arguments
(`lock_order(a,b) = lock_order(b,a)`, not equal to the swap of the result),
and the lower user id is always locked first:
`lock_order(a,b) = (min a b, max a b)`. -/
theorem lock_order_swap_invariant_ascending (a b : Int) (h : a ≠ b) :
    transferLockOrder a b = transferLockOrder b a ∧
    (transferLockOrder a b).1 = min a b ∧ (transferLockOrder a b).2 = max a b := by
  unfold transferLockOrder
  rcases lt_trichotomy a b with hab | hab | hab
  · have h1 : ¬ b < a := by omega
    rw [if_neg h1, if_pos hab]
    exact ⟨rfl, (min_eq_left hab.le).symm, (max_eq_right hab.le).symm⟩
  · exact absurd hab h
  · have h1 : ¬ a < b := by omega
    rw [if_pos hab, if_neg h1]
    exact ⟨rfl, (min_eq_right hab.le).symm, (max_eq_left hab.le).symm⟩

theorem lock_order_swap_invariant_ascending_witness :
    transferLockOrder 1 2 = transferLockOrder 2 1 ∧
    (transferLockOrder 1 2).1 = min 1 2 ∧ (transferLockOrder 1 2).2 = max 1 2 :=
  lock_order_swap_invariant_ascending 1 2 (by decide)

/-- C7: every successful Deposit with a fresh idempotency key returns the
user's old balance plus the deposited amount, and the returned balance is
never negative. -/
theorem deposit_new_balance {f : FailSpec} {l : Ledger} {req : DepositRequest}
    {l' : Ledger} {r : TransactionResponse}
    (hfresh : getTransactionByIdempotencyKey l req.idempotencyKey = none)
    (h : Deposit f l req = (l', .ok r)) :
    ∃ ua, getAccountByUserID l req.userID = some ua ∧
      r.balance = ua.balance + req.amount ∧ 0 ≤ r.balance := by
  obtain ⟨-, -, ua, ra, hua, -, hnn, -, hr⟩ := Deposit_ok_inv hfresh h
  exact ⟨ua, hua, by rw [hr], by rw [hr]; exact hnn⟩

theorem deposit_new_balance_witness :
    ∃ ua, getAccountByUserID exLedger 1 = some ua ∧
      (600000 : Int) = ua.balance + 100000 ∧ (0 : Int) ≤ 600000 := by
  have h := @deposit_new_balance noFail exLedger exDepositReq exDepositState
      ⟨1, "posted", 600000, "r", depositMsg⟩ (by rfl) (by rfl)
  simpa using h

/-- C4: for a Withdraw with valid amount and fresh key, on an existing user
account: if the locked balance covers the amount, the operation succeeds
with new balance = old − amount (hence ≥ 0) and commits exactly the
two-posting state; if the balance is strictly smaller, it fails with
`insufficientBalance` and the state is exactly the pre-state (no
transaction, no postings, no balance change). -/
theorem withdraw_balance_guard {l : Ledger} {req : WithdrawRequest} {ua ra : Account}
    (hWF : WellFormed l)
    (hkey : req.idempotencyKey ≠ "")
    (hval : validateWithdrawAmount req.amount = none)
    (hfresh : getTransactionByIdempotencyKey l req.idempotencyKey = none)
    (hua : getAccountByUserID l req.userID = some ua)
    (hra : getSystemAccount l "sys_reserve" = some ra) :
    (req.amount ≤ ua.balance →
      ∃ r, Withdraw noFail l req
          = (commitTwo l req.idempotencyKey "withdrawal" req.reference
               ua.id (-req.amount) ra.id req.amount, .ok r) ∧
        r.balance = ua.balance - req.amount ∧ 0 ≤ r.balance) ∧
    (ua.balance < req.amount →
      Withdraw noFail l req = (l, .error .insufficientBalance)) := by
  constructor
  · intro hsuff
    refine ⟨⟨l.nextTxnId, "posted", ua.balance - req.amount, req.reference, withdrawMsg⟩,
      Withdraw_noFail_ok hkey hval hfresh hua hra (by omega) hWF.2.2.2, rfl,
      by show (0 : Int) ≤ ua.balance - req.amount; omega⟩
  · intro hlt
    have hk : (req.idempotencyKey == "") = false := beq_eq_false_iff_ne.mpr hkey
    have hex : executeWithdraw noFail l req = .error .insufficientBalance :=
      executeWithdraw_insufficient rfl rfl hua hlt
    simp only [Withdraw, hk, Bool.false_eq_true, if_false, hval, hfresh, hex]

theorem withdraw_balance_guard_witness :
    Withdraw noFail exLedger ⟨2, 100000, "w1", "r"⟩ = (exLedger, .error .insufficientBalance) := by
  have h := @withdraw_balance_guard exLedger ⟨2, 100000, "w1", "r"⟩ accB accReserve
      (by decide) (by decide) (by rfl) (by rfl) (by rfl) (by rfl)
  exact h.2 (by decide)

/-- C8, counterexample: the spec §8 deposit scenario commits its transaction
with status already "posted" at creation; no transaction with status
"pending" is ever written, so transactions are not "created with status
pending". -/
theorem txn_created_posted_cex :
    (Deposit noFail exLedger exDepositReq).1.transactions
        = [⟨1, "d1", "deposit", "posted", "r"⟩] ∧
    ∀ t ∈ (Deposit noFail exLedger exDepositReq).1.transactions, t.status ≠ "pending" := by
  exact ⟨by rfl, by decide⟩

/-- C8 (amended): every transaction row any of the three operations ever
writes is created with status "posted" directly inside the unit of work
(there is no pending phase), previously stored transactions are never
modified, and thus no transaction ever changes status — in particular never
from posted back to pending. -/
theorem txn_status_posted_no_pending (f : FailSpec) (l : Ledger) :
    (∀ req : DepositRequest, (Deposit f l req).1.transactions = l.transactions ∨
      ∃ t, (Deposit f l req).1.transactions = l.transactions ++ [t] ∧ t.status = "posted") ∧
    (∀ req : WithdrawRequest, (Withdraw f l req).1.transactions = l.transactions ∨
      ∃ t, (Withdraw f l req).1.transactions = l.transactions ++ [t] ∧ t.status = "posted") ∧
    (∀ req : TransferRequest, (Transfer f l req).1.transactions = l.transactions ∨
      ∃ t, (Transfer f l req).1.transactions = l.transactions ++ [t] ∧ t.status = "posted") := by
  refine ⟨fun req => ?_, fun req => ?_, fun req => ?_⟩
  · simp only [Deposit]
    split
    · exact Or.inl rfl
    split
    · exact Or.inl rfl
    split
    · exact Or.inl rfl
    split
    · exact Or.inl rfl
    · rename_i x1 l3 tid bal hexec
      obtain ⟨ua, ra, -, -, -, -, hcommit⟩ := executeDeposit_ok hexec
      right
      refine ⟨⟨l.nextTxnId, req.idempotencyKey, "deposit", "posted", req.reference⟩, ?_, rfl⟩
      split <;> simp [hcommit, commitTwo_transactions]
  · simp only [Withdraw]
    split
    · exact Or.inl rfl
    split
    · exact Or.inl rfl
    split
    · exact Or.inl rfl
    split
    · exact Or.inl rfl
    · rename_i x1 l3 tid bal hexec
      obtain ⟨ua, ra, -, -, -, -, hcommit⟩ := executeWithdraw_ok hexec
      right
      refine ⟨⟨l.nextTxnId, req.idempotencyKey, "withdrawal", "posted", req.reference⟩, ?_, rfl⟩
      split <;> simp [hcommit, commitTwo_transactions]
  · simp only [Transfer]
    split
    · exact Or.inl rfl
    split
    · exact Or.inl rfl
    split
    · exact Or.inl rfl
    split
    · exact Or.inl rfl
    split
    · exact Or.inl rfl
    split
    · exact Or.inl rfl
    · rename_i hkeyn hsamen xv hval hfeen xl hfreshn xe lq tid sb rb hexec
      have hne : req.fromUserID ≠ req.toUserID := by simpa using hsamen
      obtain ⟨sa, ra, -, -, -, -, -, -, hshape⟩ := executeTransfer_ok hne hexec
      right
      refine ⟨⟨l.nextTxnId, req.idempotencyKey, "p2p", "posted", req.reference⟩, ?_, rfl⟩
      rcases hshape with ⟨-, hl4⟩ | ⟨-, fa, -, hl4⟩ <;>
        simp [hl4, commitTwo_transactions, createPosting]

/-- A ledger with a stored (posted, kind deposit) transaction under key
"k1". -/
def exLedger9 : Ledger :=
  ⟨[accA, accB, accReserve, accFee], [⟨1, "k1", "deposit", "posted", "orig"⟩], [], 2⟩

/-- C9, counterexample: in the `services`-package variant the idempotency
lookup precedes amount validation, so a request with an out-of-bounds
amount (5 kobo, below the minimum) whose key matches a stored transaction
is replayed as a success instead of being rejected with a Validation
error. -/
theorem services_idempotency_before_validation_cex :
    validateDepositAmount 5 = some .amountTooSmall ∧
    servicesDeposit noFail exLedger9 ⟨1, 5, "k1", "r2"⟩
      = (exLedger9, .ok ⟨1, "posted", 500000, "r2", idempotentMsg⟩) := ⟨by rfl, by rfl⟩

/-- C9 (amended): the `service`-package operations (part_004) validate the
amount before the idempotency lookup — an out-of-bounds amount is rejected
with its validation error and no replay happens, even when the key matches;
but the `services`-package variant performs the idempotency lookup first,
so there an out-of-bounds amount with a matching key is replayed as a
success.  (In both variants only the key-presence check comes first.) -/
theorem validation_vs_idempotency_order (f : FailSpec) (l : Ledger) :
    (∀ (req : DepositRequest) (e : Err), req.idempotencyKey ≠ "" →
      validateDepositAmount req.amount = some e →
      Deposit f l req = (l, .error e)) ∧
    (∀ (req : WithdrawRequest) (e : Err), req.idempotencyKey ≠ "" →
      validateWithdrawAmount req.amount = some e →
      Withdraw f l req = (l, .error e)) ∧
    (∀ (req : TransferRequest) (e : Err), req.idempotencyKey ≠ "" →
      req.fromUserID ≠ req.toUserID →
      validateTransferAmount req.amount = some e →
      Transfer f l req = (l, .error e)) ∧
    (∀ (req : DepositRequest) (tid : Int) (acc : Account), req.idempotencyKey ≠ "" →
      checkIdempotency l req.idempotencyKey = some tid →
      getAccountByUserID l req.userID = some acc →
      servicesDeposit f l req
        = (l, .ok ⟨tid, "posted", acc.balance, req.reference, idempotentMsg⟩)) := by
  refine ⟨fun req e hkey hval => ?_, fun req e hkey hval => ?_,
    fun req e hkey hne hval => ?_, fun req tid acc hkey hit hacc => ?_⟩
  · have hk : (req.idempotencyKey == "") = false := beq_eq_false_iff_ne.mpr hkey
    simp only [Deposit, hk, Bool.false_eq_true, if_false, hval]
  · have hk : (req.idempotencyKey == "") = false := beq_eq_false_iff_ne.mpr hkey
    simp only [Withdraw, hk, Bool.false_eq_true, if_false, hval]
  · have hk : (req.idempotencyKey == "") = false := beq_eq_false_iff_ne.mpr hkey
    have hb : (req.fromUserID == req.toUserID) = false := beq_eq_false_iff_ne.mpr hne
    simp only [Transfer, hk, hb, Bool.false_eq_true, if_false, hval]
  · have hk : (req.idempotencyKey == "") = false := beq_eq_false_iff_ne.mpr hkey
    simp only [servicesDeposit, hk, Bool.false_eq_true, if_false, hit, hacc]

theorem validation_vs_idempotency_order_witness :
    Deposit noFail exLedger9 ⟨1, 5, "k1", "r2"⟩ = (exLedger9, .error .amountTooSmall) :=
  (validation_vs_idempotency_order noFail exLedger9).1
    ⟨1, 5, "k1", "r2"⟩ .amountTooSmall (by decide) (by rfl)

/-- C10: the replay path matches the idempotency key alone: a Withdraw or
Transfer whose key was stored by a transaction of any kind (here arbitrary
`t`, e.g. a deposit) returns that transaction's id as a success with status
"posted" and current balance(s), and the replayed response carries the new
request's reference, not the stored transaction's fields. -/
theorem replay_matches_key_only (f : FailSpec) (l : Ledger) :
    (∀ (req : WithdrawRequest) (t : Txn) (acc : Account),
      req.idempotencyKey ≠ "" →
      validateWithdrawAmount req.amount = none →
      getTransactionByIdempotencyKey l req.idempotencyKey = some t →
      getAccountByUserID l req.userID = some acc →
      Withdraw f l req = (l, .ok ⟨t.id, "posted", acc.balance, req.reference, idempotentMsg⟩)) ∧
    (∀ (req : TransferRequest) (t : Txn) (sacc racc : Account),
      req.idempotencyKey ≠ "" →
      req.fromUserID ≠ req.toUserID →
      validateTransferAmount req.amount = none →
      ¬ req.fee < 0 →
      getTransactionByIdempotencyKey l req.idempotencyKey = some t →
      getAccountByUserID l req.fromUserID = some sacc →
      getAccountByUserID l req.toUserID = some racc →
      Transfer f l req = (l, .ok ⟨t.id, "posted", sacc.balance, racc.balance, idempotentMsg⟩)) :=
  ⟨fun _ _ _ h1 h2 h3 h4 => Withdraw_replay h1 h2 h3 h4,
   fun _ _ _ _ h1 h2 h3 h4 h5 h6 h7 => Transfer_replay h1 h2 h3 h4 h5 h6 h7⟩

theorem replay_matches_key_only_witness :
    Withdraw noFail exLedger9 ⟨1, 100000, "k1", "rw"⟩
      = (exLedger9, .ok ⟨1, "posted", 500000, "rw", idempotentMsg⟩) := by
  have h := (replay_matches_key_only noFail exLedger9).1 ⟨1, 100000, "k1", "rw"⟩
      ⟨1, "k1", "deposit", "posted", "orig"⟩ accA (by decide) (by rfl) (by rfl) (by rfl)
  simpa using h

/-- C1: every transaction committed as posted by a successful Deposit,
Withdraw, or Transfer has postings summing to exactly zero; Deposit and
Withdraw write exactly two postings (−amount and +amount), Transfer writes
−(amount+fee) and +amount, plus +fee when fee > 0. -/
theorem zero_sum_postings (f : FailSpec) {l : Ledger} (hWF : WellFormed l) :
    (∀ (req : DepositRequest) (l' : Ledger) (r : TransactionResponse),
      getTransactionByIdempotencyKey l req.idempotencyKey = none →
      Deposit f l req = (l', .ok r) →
      ∃ ua ra, getAccountByUserID l req.userID = some ua ∧
        getSystemAccount l "sys_reserve" = some ra ∧
        postingsOf l' r.transactionID
          = [⟨r.transactionID, ra.id, -req.amount⟩, ⟨r.transactionID, ua.id, req.amount⟩] ∧
        sumAmounts (postingsOf l' r.transactionID) = 0) ∧
    (∀ (req : WithdrawRequest) (l' : Ledger) (r : TransactionResponse),
      getTransactionByIdempotencyKey l req.idempotencyKey = none →
      Withdraw f l req = (l', .ok r) →
      ∃ ua ra, getAccountByUserID l req.userID = some ua ∧
        getSystemAccount l "sys_reserve" = some ra ∧
        postingsOf l' r.transactionID
          = [⟨r.transactionID, ua.id, -req.amount⟩, ⟨r.transactionID, ra.id, req.amount⟩] ∧
        sumAmounts (postingsOf l' r.transactionID) = 0) ∧
    (∀ (req : TransferRequest) (l' : Ledger) (r : TransferResponse),
      getTransactionByIdempotencyKey l req.idempotencyKey = none →
      Transfer f l req = (l', .ok r) →
      ∃ sa ra, getAccountByUserID l req.fromUserID = some sa ∧
        getAccountByUserID l req.toUserID = some ra ∧
        ((req.fee ≤ 0 ∧ postingsOf l' r.transactionID
            = [⟨r.transactionID, sa.id, -(req.amount + req.fee)⟩,
               ⟨r.transactionID, ra.id, req.amount⟩]) ∨
         (0 < req.fee ∧ ∃ fa, getSystemAccount l "sys_fee" = some fa ∧
           postingsOf l' r.transactionID
            = [⟨r.transactionID, sa.id, -(req.amount + req.fee)⟩,
               ⟨r.transactionID, ra.id, req.amount⟩,
               ⟨r.transactionID, fa.id, req.fee⟩])) ∧
        sumAmounts (postingsOf l' r.transactionID) = 0) := by
  have hfr := hWF.2.2.2
  refine ⟨fun req l' r hfresh h => ?_, fun req l' r hfresh h => ?_,
    fun req l' r hfresh h => ?_⟩
  · obtain ⟨-, -, ua, ra, hua, hra, -, hcommit, hr⟩ := Deposit_ok_inv hfresh h
    subst hcommit
    subst hr
    have hp := postingsOf_commitTwo l req.idempotencyKey "deposit" req.reference
      ra.id (-req.amount) ua.id req.amount hfr
    refine ⟨ua, ra, hua, hra, ?_, ?_⟩
    · exact hp
    · rw [hp]; simp [sumAmounts]
  · obtain ⟨-, -, ua, ra, hua, hra, -, hcommit, hr⟩ := Withdraw_ok_inv hfresh h
    subst hcommit
    subst hr
    have hp := postingsOf_commitTwo l req.idempotencyKey "withdrawal" req.reference
      ua.id (-req.amount) ra.id req.amount hfr
    refine ⟨ua, ra, hua, hra, ?_, ?_⟩
    · exact hp
    · rw [hp]; simp [sumAmounts]
  · obtain ⟨-, -, -, hfge, sa, ra, hsa, hra, -, hr, hshape⟩ := Transfer_ok_inv hfresh h
    subst hr
    have hp := postingsOf_commitTwo l req.idempotencyKey "p2p" req.reference
      sa.id (-(req.amount + req.fee)) ra.id req.amount hfr
    rcases hshape with ⟨hfle, hcommit⟩ | ⟨hfpos, fa, hfa, hcommit⟩
    · subst hcommit
      exact ⟨sa, ra, hsa, hra, Or.inl ⟨hfle, hp⟩, by rw [hp]; simp [sumAmounts]; omega⟩
    · subst hcommit
      have hp3 := postingsOf_createPosting
        (commitTwo l req.idempotencyKey "p2p" req.reference
          sa.id (-(req.amount + req.fee)) ra.id req.amount)
        ⟨l.nextTxnId, fa.id, req.fee⟩ l.nextTxnId rfl
      rw [hp] at hp3
      exact ⟨sa, ra, hsa, hra, Or.inr ⟨hfpos, fa, hfa, hp3⟩, by rw [hp3]; simp [sumAmounts]; omega⟩

theorem zero_sum_postings_witness :
    ∃ ua ra, getAccountByUserID exLedger 1 = some ua ∧
      getSystemAccount exLedger "sys_reserve" = some ra ∧
      postingsOf exDepositState 1 = [⟨1, ra.id, -100000⟩, ⟨1, ua.id, 100000⟩] ∧
      sumAmounts (postingsOf exDepositState 1) = 0 := by
  have h := (zero_sum_postings noFail (l := exLedger) (by decide)).1 exDepositReq exDepositState
      ⟨1, "posted", 600000, "r", depositMsg⟩ (by rfl) (by rfl)
  simpa [exDepositReq] using h

/-- C5: a successful Transfer with a fresh key debits the sender by exactly
amount + fee (the returned sender balance is old − (amount + fee)), credits
the recipient by amount (returned balance old + amount), and when fee > 0
the fee account's stored balance is credited by exactly fee. -/
theorem transfer_balances {f : FailSpec} {l : Ledger} {req : TransferRequest}
    {l' : Ledger} {r : TransferResponse}
    (hWF : WellFormed l)
    (hfresh : getTransactionByIdempotencyKey l req.idempotencyKey = none)
    (h : Transfer f l req = (l', .ok r)) :
    ∃ sa ra, getAccountByUserID l req.fromUserID = some sa ∧
      getAccountByUserID l req.toUserID = some ra ∧
      req.amount + req.fee ≤ sa.balance ∧
      r.senderBalance = sa.balance - (req.amount + req.fee) ∧
      r.recipientBalance = ra.balance + req.amount ∧
      (0 < req.fee → ∃ fa, getSystemAccount l "sys_fee" = some fa ∧
        getSystemAccount l' "sys_fee" = some { fa with balance := fa.balance + req.fee }) := by
  obtain ⟨-, -, -, -, sa, ra, hsa, hra, hsuff, hr, hshape⟩ := Transfer_ok_inv hfresh h
  refine ⟨sa, ra, hsa, hra, hsuff, by rw [hr], by rw [hr], ?_⟩
  intro hpos
  rcases hshape with ⟨hle, -⟩ | ⟨-, fa, hfa, hl'⟩
  · omega
  · refine ⟨fa, hfa, ?_⟩
    subst hl'
    have h1 : findSystem l.accounts "sys_fee" = some fa := hfa
    have hsane : sa.id ≠ fa.id := user_system_id_ne hWF hsa hfa
    have hrane : ra.id ≠ fa.id := user_system_id_ne hWF hra hfa
    show findSystem (createPosting
      (commitTwo l req.idempotencyKey "p2p" req.reference
        sa.id (-(req.amount + req.fee)) ra.id req.amount)
      ⟨l.nextTxnId, fa.id, req.fee⟩).accounts "sys_fee" = _
    rw [findSystem_createPosting, findSystem_commitTwo, h1]
    simp only [Option.map_some']
    rw [applyPosting_of_ne (p := ⟨l.nextTxnId, sa.id, -(req.amount + req.fee)⟩) hsane.symm]
    rw [applyPosting_of_ne (p := ⟨l.nextTxnId, ra.id, req.amount⟩) hrane.symm]
    rw [applyPosting_of_eq rfl]

/-- The ledger after the §8 scenario deposit and the scenario transfer
Transfer(A→B, 100000, fee 5000, key "t1"). -/
def exTransferReq : TransferRequest := ⟨1, 2, 100000, 5000, "t1", "rt"⟩

def exTransferState : Ledger := (Transfer noFail exDepositState exTransferReq).1

theorem transfer_balances_witness :
    ∃ sa ra, getAccountByUserID exDepositState 1 = some sa ∧
      getAccountByUserID exDepositState 2 = some ra ∧
      (100000 : Int) + 5000 ≤ sa.balance ∧
      (495000 : Int) = sa.balance - (100000 + 5000) ∧
      (150000 : Int) = ra.balance + 100000 ∧
      ((0 : Int) < 5000 → ∃ fa, getSystemAccount exDepositState "sys_fee" = some fa ∧
        getSystemAccount exTransferState "sys_fee"
          = some { fa with balance := fa.balance + 5000 }) := by
  have h := @transfer_balances noFail exDepositState exTransferReq exTransferState
      ⟨2, "posted", 495000, 150000, transferMsg⟩ (by decide) (by rfl) (by rfl)
  simpa [exTransferReq] using h

/-- C3: whenever an operation returns an error — including infrastructure
failures injected at any step of the unit of work (after the transaction
row is created, between postings, or at commit; these are all the `f`
branches) — the observable state is exactly the pre-state: no transaction,
no posting, no balance change survives.  The hypothesis that user balances
are non-negative is the spec's own data-model invariant; it rules out the
one path (`Deposit` then the negative-balance sanity check) that in an
invariant-violating state would report an error after the commit. -/
theorem rollback_on_error (f : FailSpec) {l : Ledger} (hWF : WellFormed l)
    (hnn : ∀ a ∈ l.accounts, a.typ = "user" → 0 ≤ a.balance) :
    (∀ (req : DepositRequest) (e : Err),
      (Deposit f l req).2 = .error e → (Deposit f l req).1 = l) ∧
    (∀ (req : WithdrawRequest) (e : Err),
      (Withdraw f l req).2 = .error e → (Withdraw f l req).1 = l) ∧
    (∀ (req : TransferRequest) (e : Err),
      (Transfer f l req).2 = .error e → (Transfer f l req).1 = l) := by
  refine ⟨fun req e => ?_, fun req e => ?_, fun req e => ?_⟩
  · rcases hd : Deposit f l req with ⟨l2, res⟩
    simp only [hd]
    simp only [Deposit] at hd
    split at hd
    · exact fun _ => (Prod.mk.injEq .. ▸ hd).1.symm
    split at hd
    · exact fun _ => (Prod.mk.injEq .. ▸ hd).1.symm
    split at hd
    · exact fun _ => (Prod.mk.injEq .. ▸ hd).1.symm
    split at hd
    · exact fun _ => (Prod.mk.injEq .. ▸ hd).1.symm
    split at hd
    · rename_i hkeyn xv hval xl hlookn xe l3 tid bal hexec hlt
      obtain ⟨ua, ra, hua, hra2, htid, hbal, -⟩ := executeDeposit_ok hexec
      have hpos := validateDepositAmount_none_pos hval
      obtain ⟨hmem, huid⟩ := findByUser_mem hua
      have htyp : ua.typ = "user" := hWF.2.1 ua hmem (by simp [huid])
      have h0 : 0 ≤ ua.balance := hnn ua hmem htyp
      rw [hbal] at hlt
      exact fun _ => absurd hlt (by omega)
    · intro hres
      have := (Prod.mk.injEq .. ▸ hd).2
      rw [← this] at hres
      exact Except.noConfusion hres
  · rcases hd : Withdraw f l req with ⟨l2, res⟩
    simp only [hd]
    simp only [Withdraw] at hd
    split at hd
    · exact fun _ => (Prod.mk.injEq .. ▸ hd).1.symm
    split at hd
    · exact fun _ => (Prod.mk.injEq .. ▸ hd).1.symm
    split at hd
    · exact fun _ => (Prod.mk.injEq .. ▸ hd).1.symm
    split at hd
    · exact fun _ => (Prod.mk.injEq .. ▸ hd).1.symm
    split at hd
    · rename_i hkeyn xv hval xl hlookn xe l3 tid bal hexec hlt
      obtain ⟨ua, ra, hua, hra2, hsuff, htid, hbal, -⟩ := executeWithdraw_ok hexec
      rw [hbal] at hlt
      exact fun _ => absurd hlt (by omega)
    · intro hres
      have := (Prod.mk.injEq .. ▸ hd).2
      rw [← this] at hres
      exact Except.noConfusion hres
  · rcases hd : Transfer f l req with ⟨l2, res⟩
    simp only [hd]
    simp only [Transfer] at hd
    split at hd
    · exact fun _ => (Prod.mk.injEq .. ▸ hd).1.symm
    split at hd
    · exact fun _ => (Prod.mk.injEq .. ▸ hd).1.symm
    split at hd
    · exact fun _ => (Prod.mk.injEq .. ▸ hd).1.symm
    split at hd
    · exact fun _ => (Prod.mk.injEq .. ▸ hd).1.symm
    split at hd
    · exact fun _ => (Prod.mk.injEq .. ▸ hd).1.symm
    split at hd
    · exact fun _ => (Prod.mk.injEq .. ▸ hd).1.symm
    · intro hres
      have := (Prod.mk.injEq .. ▸ hd).2
      rw [← this] at hres
      exact Except.noConfusion hres

theorem rollback_on_error_witness :
    (Deposit ⟨false, false, false, false, false, false, true, false, false⟩
        exLedger exDepositReq).1 = exLedger := by
  have h := (rollback_on_error
      ⟨false, false, false, false, false, false, true, false, false⟩
      (l := exLedger) (by decide) (by decide)).1 exDepositReq (.infra "create posting")
  exact h (by rfl)

lemma getTxnByKey_createPosting (l : Ledger) (p : Posting) (k : String) :
    getTransactionByIdempotencyKey (createPosting l p) k
      = getTransactionByIdempotencyKey l k := rfl

/-- C2: after a first successful call committed under a fresh idempotency
key, re-issuing the same request (under any failure oracle `f'` — the
replay touches no unit of work) returns the same transaction id and the
same final balance(s), marked as a replay, and leaves the state exactly
unchanged: no new transaction, no new postings, no balance change. -/
theorem idempotent_second_call {l : Ledger} (hWF : WellFormed l) :
    (∀ (f f' : FailSpec) (req : DepositRequest) (l' : Ledger) (r : TransactionResponse),
      getTransactionByIdempotencyKey l req.idempotencyKey = none →
      Deposit f l req = (l', .ok r) →
      Deposit f' l' req
        = (l', .ok ⟨r.transactionID, "posted", r.balance, req.reference, idempotentMsg⟩)) ∧
    (∀ (f f' : FailSpec) (req : WithdrawRequest) (l' : Ledger) (r : TransactionResponse),
      getTransactionByIdempotencyKey l req.idempotencyKey = none →
      Withdraw f l req = (l', .ok r) →
      Withdraw f' l' req
        = (l', .ok ⟨r.transactionID, "posted", r.balance, req.reference, idempotentMsg⟩)) ∧
    (∀ (f f' : FailSpec) (req : TransferRequest) (l' : Ledger) (r : TransferResponse),
      getTransactionByIdempotencyKey l req.idempotencyKey = none →
      Transfer f l req = (l', .ok r) →
      Transfer f' l' req
        = (l', .ok ⟨r.transactionID, "posted", r.senderBalance, r.recipientBalance,
             idempotentMsg⟩)) := by
  refine ⟨fun f f' req l' r hfresh h => ?_, fun f f' req l' r hfresh h => ?_,
    fun f f' req l' r hfresh h => ?_⟩
  · obtain ⟨hkey, hval, ua, ra, hua, hra, -, hcommit, hr⟩ := Deposit_ok_inv hfresh h
    have hne : ua.id ≠ ra.id := user_system_id_ne hWF hua hra
    subst hcommit
    have hlook := getTxnByKey_commitTwo l req.idempotencyKey "deposit" req.reference
      ra.id (-req.amount) ua.id req.amount hfresh
    have hacc : getAccountByUserID
        (commitTwo l req.idempotencyKey "deposit" req.reference
          ra.id (-req.amount) ua.id req.amount) req.userID
        = some { ua with balance := ua.balance + req.amount } :=
      findByUser_commitTwo_second hua req.idempotencyKey "deposit" req.reference
        ra.id (-req.amount) req.amount hne
    have hrep := Deposit_replay (f := f') hkey hval hlook hacc
    rw [hr]
    exact hrep
  · obtain ⟨hkey, hval, ua, ra, hua, hra, -, hcommit, hr⟩ := Withdraw_ok_inv hfresh h
    have hne : ua.id ≠ ra.id := user_system_id_ne hWF hua hra
    subst hcommit
    have hlook := getTxnByKey_commitTwo l req.idempotencyKey "withdrawal" req.reference
      ua.id (-req.amount) ra.id req.amount hfresh
    have hacc : getAccountByUserID
        (commitTwo l req.idempotencyKey "withdrawal" req.reference
          ua.id (-req.amount) ra.id req.amount) req.userID
        = some { ua with balance := ua.balance + -req.amount } :=
      findByUser_commitTwo_first hua req.idempotencyKey "withdrawal" req.reference
        (-req.amount) ra.id req.amount hne
    have hrep := Withdraw_replay (f := f') hkey hval hlook hacc
    rw [hr]
    exact hrep
  · obtain ⟨hkey, hne, hval, hfge, sa, ra, hsa, hra, -, hr, hshape⟩ := Transfer_ok_inv hfresh h
    have hneid : sa.id ≠ ra.id := user_user_id_ne hWF hne hsa hra
    have hfneg : ¬ req.fee < 0 := not_lt.mpr hfge
    rcases hshape with ⟨-, hcommit⟩ | ⟨-, fa, hfa, hcommit⟩
    · subst hcommit
      have hlook := getTxnByKey_commitTwo l req.idempotencyKey "p2p" req.reference
        sa.id (-(req.amount + req.fee)) ra.id req.amount hfresh
      have hs' : getAccountByUserID
          (commitTwo l req.idempotencyKey "p2p" req.reference
            sa.id (-(req.amount + req.fee)) ra.id req.amount) req.fromUserID
          = some { sa with balance := sa.balance + -(req.amount + req.fee) } :=
        findByUser_commitTwo_first hsa req.idempotencyKey "p2p" req.reference
          (-(req.amount + req.fee)) ra.id req.amount hneid
      have hr' : getAccountByUserID
          (commitTwo l req.idempotencyKey "p2p" req.reference
            sa.id (-(req.amount + req.fee)) ra.id req.amount) req.toUserID
          = some { ra with balance := ra.balance + req.amount } :=
        findByUser_commitTwo_second hra req.idempotencyKey "p2p" req.reference
          sa.id (-(req.amount + req.fee)) req.amount hneid.symm
      have hrep := Transfer_replay (f := f') hkey hne hval hfneg hlook hs' hr'
      rw [hr]
      exact hrep
    · subst hcommit
      have hsane : sa.id ≠ fa.id := user_system_id_ne hWF hsa hfa
      have hrane : ra.id ≠ fa.id := user_system_id_ne hWF hra hfa
      have hlook : getTransactionByIdempotencyKey
          (createPosting
            (commitTwo l req.idempotencyKey "p2p" req.reference
              sa.id (-(req.amount + req.fee)) ra.id req.amount)
            ⟨l.nextTxnId, fa.id, req.fee⟩) req.idempotencyKey
          = some ⟨l.nextTxnId, req.idempotencyKey, "p2p", "posted", req.reference⟩ := by
        rw [getTxnByKey_createPosting]
        exact getTxnByKey_commitTwo l req.idempotencyKey "p2p" req.reference
          sa.id (-(req.amount + req.fee)) ra.id req.amount hfresh
      have hs0 := findByUser_commitTwo_first hsa req.idempotencyKey "p2p" req.reference
        (-(req.amount + req.fee)) ra.id req.amount hneid
      have hr0 := findByUser_commitTwo_second hra req.idempotencyKey "p2p" req.reference
        sa.id (-(req.amount + req.fee)) req.amount hneid.symm
      have hs' : getAccountByUserID
          (createPosting
            (commitTwo l req.idempotencyKey "p2p" req.reference
              sa.id (-(req.amount + req.fee)) ra.id req.amount)
            ⟨l.nextTxnId, fa.id, req.fee⟩) req.fromUserID
          = some { sa with balance := sa.balance + -(req.amount + req.fee) } := by
        show findByUser _ req.fromUserID = _
        rw [findByUser_createPosting, hs0]
        simp only [Option.map_some']
        rw [applyPosting_of_ne hsane]
      have hr' : getAccountByUserID
          (createPosting
            (commitTwo l req.idempotencyKey "p2p" req.reference
              sa.id (-(req.amount + req.fee)) ra.id req.amount)
            ⟨l.nextTxnId, fa.id, req.fee⟩) req.toUserID
          = some { ra with balance := ra.balance + req.amount } := by
        show findByUser _ req.toUserID = _
        rw [findByUser_createPosting, hr0]
        simp only [Option.map_some']
        rw [applyPosting_of_ne hrane]
      have hrep := Transfer_replay (f := f') hkey hne hval hfneg hlook hs' hr'
      rw [hr]
      exact hrep

theorem idempotent_second_call_witness :
    Deposit noFail exDepositState exDepositReq
      = (exDepositState, .ok ⟨1, "posted", 600000, "r", idempotentMsg⟩) := by
  have h := (idempotent_second_call (l := exLedger) (by decide)).1 noFail noFail
      exDepositReq exDepositState ⟨1, "posted", 600000, "r", depositMsg⟩ (by rfl) (by rfl)
  simpa using h

end Debank
